import Mathlib

/-!
Shallow embedding of the fluid-settings value store and daemon logic.

Sources embedded here:
* `src/fluid-settings/value.cpp` / `value.h` — the `value` class
  (priority/timestamp bounds check in `value::set_value`,
  `operator<` comparing priorities only);
* `src/fluid-settings/settings.cpp` — `settings::get_value`,
  `settings::set_value`, `settings::reset_setting`,
  `settings::serialize_value`;
* `src/daemon/server.cpp` — `server::listen`, `server::set_value`,
  `server::reset_setting`, `server::value_changed`,
  `server::remote_value_changed`;
* `src/daemon/messenger.cpp` — `messenger::connect_from_gossip`,
  `messenger::msg_connected`, `messenger::msg_gossip`.

C++ strings are modelled as `List Char`, `std::set<value>` (ordered by
priority, unique priorities) as a list sorted strictly by priority, and
`value::map_t` (`std::map<std::string, value::set_t>`) as
`Str → Option (List VRecord)` (`none` = key absent from the map).
`std::set::insert` is embedded faithfully: it does nothing when an
element with an equivalent key (same priority) is already present.

The external advgetopt option object `o` obtained from
`f_opts->get_option(name)` is modelled by the schema map together with a
per-name `defined` flag: `o->set_value(0, v, SOURCE_DYNAMIC)` followed by
the `o->is_defined()` test is modelled as setting the flag to the result
of the schema validator on `v`, and `o->reset()` clears the flag.
`snapdev::string_replace_many` performs a single left-to-right pass,
replacing at each position the first matching pattern, and
`snapdev::tokenize_string(out, str, {sep})` keeps empty tokens; both are
embedded accordingly.
-/

namespace FluidSettings

/-- C++ `std::string`, modelled as its character sequence. -/
abbrev Str := List Char

/-- `fluid_settings::value`: one stored record (value, priority, timestamp
in nanoseconds since the Unix epoch, the model of `snapdev::timespec_ex`). -/
structure VRecord where
  value : Str
  priority : Int
  timestamp : Int
  deriving DecidableEq, Repr

/-- `MINIMUM_PRIORITY` from `value.h`. -/
def MINIMUM_PRIORITY : Int := 0

/-- `MAXIMUM_PRIORITY` from `value.h`. -/
def MAXIMUM_PRIORITY : Int := 99

/-- `HIGHEST_PRIORITY` from `value.h`. -/
def HIGHEST_PRIORITY : Int := -1

/-- `g_oldest_fluid_setting` from `value.cpp`:
2022-07-21T00:00:00Z (= 1658361600 s) in nanoseconds. -/
def OLDEST_TIMESTAMP : Int := 1658361600000000000

/-- `value::set_value` from `value.cpp`: builds a record after checking the
priority bounds and the timestamp floor; `none` models the
`fluid_settings_parameter_error` throw. -/
def value_set_value (v : Str) (priority : Int) (timestamp : Int) : Option VRecord :=
  if priority < MINIMUM_PRIORITY ∨ priority > MAXIMUM_PRIORITY then none
  else if timestamp < OLDEST_TIMESTAMP then none
  else some ⟨v, priority, timestamp⟩

/-- `std::set<value>::find` with `value::operator<` comparing priorities:
finds the record whose priority is equivalent to `p`. -/
def setFind (s : List VRecord) (p : Int) : Option VRecord :=
  s.find? (fun r => r.priority = p)

/-- `std::set<value>::insert` with `value::operator<` comparing priorities:
inserts in priority order, and does nothing when a record with the same
priority is already present. -/
def setInsert (v : VRecord) : List VRecord → List VRecord
  | [] => [v]
  | r :: rest =>
      if v.priority < r.priority then v :: r :: rest
      else if r.priority < v.priority then r :: setInsert v rest
      else r :: rest

/-- `std::set<value>::erase` of the record found at priority `p`. -/
def setErase (s : List VRecord) (p : Int) : List VRecord :=
  s.eraseP (fun r => r.priority = p)

/-- One schema entry of `f_opts` (external advgetopt option): an optional
default value and the validator attached to the declared type. -/
structure SchemaEntry where
  default? : Option Str
  validate : Str → Bool

/-- The state of the `settings` object of `settings.cpp`: the schema
(`f_opts` option table), the per-option advgetopt defined flag, and
`f_values` (`value::map_t`). -/
structure Settings where
  schema : Str → Option SchemaEntry
  defined : Str → Bool
  values : Str → Option (List VRecord)

/-- Pointwise update of a string-keyed map. -/
def fupd {α : Type} (f : Str → α) (k : Str) (a : α) : Str → α :=
  fun x => if x = k then a else f x

/-- Outcome of `settings::set_value` / `settings::reset_setting`: the
returned boolean, or the propagated `fluid_settings_parameter_error`. -/
inductive CallRes
  | thrown
  | ret (b : Bool)
  deriving DecidableEq, Repr

/-- `settings::set_value` from `settings.cpp` (lines 382-432).
The record at an existing priority is looked up with `std::set::find`;
when the incoming timestamp is strictly newer the code calls
`std::set::insert`, which does not replace the equivalent element. -/
def settings_set_value (st : Settings) (name v : Str) (priority timestamp : Int) :
    CallRes × Settings :=
  match st.schema name with
  | none => (.ret false, st)
  | some entry =>
      -- o->set_value(0, new_value, SOURCE_DYNAMIC); if(!o->is_defined()) return false;
      let d := entry.validate v
      let st1 : Settings := { st with defined := fupd st.defined name d }
      if d = false then (.ret false, st1)
      else
        match value_set_value v priority timestamp with
        | none => (.thrown, st1)
        | some rec =>
            match st1.values name with
            | none =>
                (.ret true, { st1 with values := fupd st1.values name (some [rec]) })
            | some s =>
                match setFind s priority with
                | none =>
                    (.ret true,
                      { st1 with values := fupd st1.values name (some (setInsert rec s)) })
                | some vp =>
                    if vp.timestamp < timestamp then
                      (.ret true,
                        { st1 with values := fupd st1.values name (some (setInsert rec s)) })
                    else
                      (.ret true, st1)

/-- Result of `settings::get_value` (`get_result_t` of `settings.h`
together with the out-parameter `result`); `thrown` models the
`value::set_value` throw on an out-of-range priority lookup. -/
inductive GetRes
  | unknown
  | notSet
  | withDefault (v : Str)
  | success (v : Str)
  | error
  | priorityNotFound
  | thrown
  deriving DecidableEq, Repr

/-- `string_replace_many(v, {{",", "\\,"}})` used by the `all = true`
branch of `settings::get_value`. -/
def escapeComma (v : Str) : Str :=
  v.flatMap (fun c => if c = ',' then ['\\', ','] else [c])

/-- Comma-joined list of all stored values (the `all = true` branch). -/
def joinAllValues : List VRecord → Str
  | [] => []
  | [r] => escapeComma r.value
  | r :: rest => escapeComma r.value ++ ',' :: joinAllValues rest

/-- Last element of a non-empty list (`rbegin()` of the ordered set). -/
def lastRec (r : VRecord) : List VRecord → VRecord
  | [] => r
  | x :: xs => lastRec x xs

/-- `settings::get_value` from `settings.cpp` (lines 293-379). -/
def settings_get_value (st : Settings) (name : Str) (priority : Int) (all : Bool) :
    GetRes :=
  match st.schema name with
  | none => .unknown
  | some entry =>
      if st.defined name = false then
        match entry.default? with
        | some d => .withDefault d
        | none => .notSet
      else
        match st.values name with
        | none => .error
        | some s =>
            match s with
            | [] =>
                match entry.default? with
                | some d => .withDefault d
                | none => .notSet
            | r0 :: rest =>
                if all then .success (joinAllValues (r0 :: rest))
                else if priority = HIGHEST_PRIORITY then
                  .success (lastRec r0 rest).value
                else if priority < MINIMUM_PRIORITY ∨ priority > MAXIMUM_PRIORITY then
                  -- v.set_value(std::string(), priority, now) throws
                  .thrown
                else
                  match setFind (r0 :: rest) priority with
                  | none => .priorityNotFound
                  | some vp => .success vp.value

/-- `settings::reset_setting` from `settings.cpp` (lines 435-470).
`o->reset()` runs before `f_values` is consulted. -/
def settings_reset_setting (st : Settings) (name : Str) (priority : Int) :
    CallRes × Settings :=
  match st.schema name with
  | none => (.ret false, st)
  | some _ =>
      let st1 : Settings := { st with defined := fupd st.defined name false }
      match st1.values name with
      | none => (.ret false, st1)
      | some s =>
          if priority < MINIMUM_PRIORITY ∨ priority > MAXIMUM_PRIORITY then
            (.thrown, st1)
          else
            match setFind s priority with
            | none => (.ret false, st1)
            | some _ =>
                let s' := setErase s priority
                if s' = [] then
                  (.ret true, { st1 with values := fupd st1.values name none })
                else
                  (.ret true, { st1 with values := fupd st1.values name (some s') })

/-! ### Serialization (`settings::serialize_value`) and the peer merge -/

/-- One step of the single-pass `string_replace_many` call of
`settings::serialize_value`: patterns `"|" → "\P"`, `"\" → "\S"`,
`"\n" → "\n"` (two characters), `"\r" → "\r"` (two characters). -/
def escapeChar (c : Char) : Str :=
  if c = '|' then ['\\', 'P']
  else if c = '\\' then ['\\', 'S']
  else if c = '\n' then ['\\', 'n']
  else if c = '\r' then ['\\', 'r']
  else [c]

/-- The escaped form of a stored value, per `settings::serialize_value`. -/
def escapeValue (v : Str) : Str := v.flatMap escapeChar

/-- Decimal digits of `n`, most significant first, as produced by
`std::to_string`; the fuel argument makes the recursion structural. -/
def natToCharsAux : Nat → Nat → Str
  | 0, _ => []
  | fuel + 1, n =>
      if n < 10 then [Nat.digitChar n]
      else natToCharsAux fuel (n / 10) ++ [Nat.digitChar (n % 10)]

/-- `std::to_string` on a non-negative number. -/
def natToChars (n : Nat) : Str := natToCharsAux (n + 1) n

/-- `std::to_string` on an `int`/`int64_t`. -/
def intToChars (i : Int) : Str :=
  if i < 0 then '-' :: natToChars (-i).toNat else natToChars i.toNat

/-- The line for one record: `priority | timestamp-ns | escaped-value`
(`FIELD_SEPARATOR = '|'`). -/
def lineOf (r : VRecord) : Str :=
  intToChars r.priority ++ ('|' :: (intToChars r.timestamp
    ++ ('|' :: escapeValue r.value)))

/-- One serialized record: its line followed by `VALUE_SEPARATOR = '\n'`. -/
def serializeRecord (r : VRecord) : Str := lineOf r ++ ['\n']

/-- `settings::serialize_value` from `settings.cpp` (lines 556-591). -/
def serialize_value (st : Settings) (name : Str) : Str :=
  match st.values name with
  | none => []
  | some s => (s.map serializeRecord).flatten

/-- `snapdev::tokenize_string(out, str, {sep})` with empty tokens kept:
splitting on a separator character. -/
def splitOnChar (sep : Char) : Str → List Str
  | [] => [[]]
  | c :: r =>
      if c = sep then [] :: splitOnChar sep r
      else
        match splitOnChar sep r with
        | [] => [[c]]
        | t :: ts => (c :: t) :: ts

/-- All-digit check and decimal value of a token, the accepting core of
`advgetopt::validator_integer::convert_string`. -/
def parseNatDigits (l : Str) : Option Nat :=
  if l = [] then none
  else if l.all Char.isDigit then
    some (l.foldl (fun acc c => acc * 10 + (c.toNat - 48)) 0)
  else none

/-- `advgetopt::validator_integer::convert_string`: optional sign followed
by decimal digits. -/
def parseInt : Str → Option Int
  | [] => none
  | c :: r =>
      if c = '-' then (parseNatDigits r).map (fun n => -(n : Int))
      else if c = '+' then (parseNatDigits r).map (fun n => (n : Int))
      else (parseNatDigits (c :: r)).map (fun n => (n : Int))

/-- The single-pass `string_replace_many` call of
`server::remote_value_changed`: patterns `"\P" → "|"`, `"\S" → "\"`,
`"\n" → newline`, `"\r" → carriage return`. -/
def unescapeValue : Str → Str
  | [] => []
  | [c] => [c]
  | c1 :: c2 :: r =>
      if c1 = '\\' then
        if c2 = 'P' then '|' :: unescapeValue r
        else if c2 = 'S' then '\\' :: unescapeValue r
        else if c2 = 'n' then '\n' :: unescapeValue r
        else if c2 = 'r' then '\r' :: unescapeValue r
        else c1 :: unescapeValue (c2 :: r)
      else c1 :: unescapeValue (c2 :: r)

/-- Parsing of one line of a `VALUE_CHANGED` blob by
`server::remote_value_changed`: three `|`-separated fields, integer
priority and timestamp, escaped value; `none` models the
skip-with-warning paths. -/
def parseLine (l : Str) : Option (Int × Int × Str) :=
  match splitOnChar '|' l with
  | [a, b, c] =>
      match parseInt a, parseInt b with
      | some p, some t => some (p, t, unescapeValue c)
      | _, _ => none
  | _ => none

/-! ### The daemon (`server.cpp`, `messenger.cpp`) -/

/-- A `(server, service)` subscriber (`server_service` of `server.h`). -/
structure Sub where
  server : Str
  service : Str
  deriving DecidableEq, Repr

/-- A message emitted by the daemon: `notify` is a `send_message` of a
`NEW_VALUE` message addressed to one subscriber, `broadcastStep` is the
`ed::broadcast_message(f_replicators, …)` call of `server::value_changed`
(whose message carries the `name` and `values` parameters; the code never
sets a command on it). -/
inductive OutMsg
  | notify (target : Sub) (cmd : Str) (params : List (Str × Str))
  | broadcastStep (name : Str) (values : Str)
  deriving DecidableEq, Repr

/-- Is this message the peer broadcast step? -/
def OutMsg.isBroadcast : OutMsg → Bool
  | .broadcastStep _ _ => true
  | .notify _ _ _ => false

/-- The daemon state used by `server.cpp`: the settings object, the
listeners registry `f_listeners` (per name, the set of subscribers,
modelled as a duplicate-free list), the `f_remote_change` flag and the
save-timer armed state. -/
structure ServerState where
  settings : Settings
  listeners : Str → List Sub
  remoteChange : Bool
  saveArmed : Bool

/-- The command of the per-subscriber message sent by
`server::value_changed`. -/
def cmdNewValue : Str := "NEW_VALUE".toList

/-- Parameter names used in daemon messages. -/
def pValue : Str := "value".toList

/-- The `message` parameter key. -/
def pMessage : Str := "message".toList

/-- The `value undefined` text of `server::value_changed`. -/
def valueUndefinedText : Str := "value undefined".toList

/-- Payload of a `NEW_VALUE` message given the `get_value` outcome: the
new effective value when one was retrieved, `message: value undefined`
otherwise. -/
def payloadOf : GetRes → List (Str × Str)
  | .success v => [(pValue, v)]
  | .withDefault v => [(pValue, v)]
  | _ => [(pMessage, valueUndefinedText)]

/-- `server::value_changed` from `server.cpp` (lines 484-554): arm the
save timer if not armed, send one `NEW_VALUE` message per subscriber of
`name`, then, unless `f_remote_change` is set, broadcast the serialized
value set to all replicators. -/
def value_changed (st : ServerState) (name : Str) : ServerState × List OutMsg :=
  let st1 := if st.saveArmed then st else { st with saveArmed := true }
  let g := settings_get_value st1.settings name HIGHEST_PRIORITY false
  let notifies := (st1.listeners name).map (fun s => OutMsg.notify s cmdNewValue (payloadOf g))
  if st1.remoteChange then (st1, notifies)
  else (st1, notifies ++ [OutMsg.broadcastStep name (serialize_value st1.settings name)])

/-- `server::set_value` from `server.cpp` (lines 454-467): on a
successful store mutation run the change dispatcher; the store result
(`false` or a propagated exception) passes through otherwise. -/
def server_set_value (st : ServerState) (name v : Str) (priority timestamp : Int) :
    CallRes × ServerState × List OutMsg :=
  let res := settings_set_value st.settings name v priority timestamp
  let st' : ServerState := { st with settings := res.2 }
  if res.1 = .ret true then
    (.ret true, (value_changed st' name).1, (value_changed st' name).2)
  else
    (res.1, st', [])

/-- `server::reset_setting` from `server.cpp` (lines 470-481). -/
def server_reset_setting (st : ServerState) (name : Str) (priority : Int) :
    CallRes × ServerState × List OutMsg :=
  let res := settings_reset_setting st.settings name priority
  let st' : ServerState := { st with settings := res.2 }
  if res.1 = .ret true then
    (.ret true, (value_changed st' name).1, (value_changed st' name).2)
  else
    (res.1, st', [])

/-- The merge loop of `server::remote_value_changed`: apply each line as a
`set_value` call, skipping malformed lines; an exception from
`settings::set_value` aborts the loop (and propagates). -/
def applyLines (name : Str) : ServerState → List Str → ServerState × List OutMsg
  | st, [] => (st, [])
  | st, l :: rest =>
      match parseLine l with
      | none => applyLines name st rest
      | some (p, t, v) =>
          let res := server_set_value st name v p t
          if res.1 = .thrown then (res.2.1, res.2.2)
          else
            ((applyLines name res.2.1 rest).1,
              res.2.2 ++ (applyLines name res.2.1 rest).2)

/-- The body of `server::remote_value_changed` (`server.cpp` lines
600-699) once the `name` and `values` parameters are extracted: the
`snapdev::safe_variable` RAII guard holds `f_remote_change` at `true` for
the duration of the merge and restores `false` afterwards (also when an
exception escapes the loop). -/
def remote_value_changed (st : ServerState) (name : Str) (blob : Str) :
    ServerState × List OutMsg :=
  let st1 : ServerState := { st with remoteChange := true }
  let res := applyLines name st1 (splitOnChar '\n' blob)
  ({ res.1 with remoteChange := false }, res.2)

/-- The `for(auto const & n : split_names)` loop of `server::listen`:
`f_listeners[n].insert(ss)` inserts only when absent and its `.second`
signals an actual insertion, which drops the accumulated result to
`false`. -/
def listenLoop (ss : Sub) : (Str → List Sub) → List Str → Bool → Bool × (Str → List Sub)
  | reg, [], acc => (acc, reg)
  | reg, n :: rest, acc =>
      if ss ∈ reg n then listenLoop ss reg rest acc
      else listenLoop ss (fupd reg n (ss :: reg n)) rest false

/-- `server::listen` from `server.cpp` (lines 364-393): split the names on
commas (`advgetopt::split_string` drops empty tokens), reject an empty
list, and insert the `(server, service)` pair into each name's subscriber
set; the result starts at `true` and drops to `false` on the first
actual insertion. -/
def server_listen (reg : Str → List Sub) (server_name service_name : Str) (names : Str) :
    Bool × (Str → List Sub) :=
  let split_names := (splitOnChar ',' names).filter (fun n => n ≠ [])
  if split_names = [] then (false, reg)
  else
    let ss : Sub := ⟨server_name, service_name⟩
    listenLoop ss reg split_names true

/-! ### Gossip tie-break (`messenger::connect_from_gossip`) -/

/-- The tie-break reply text of the `a < b` branch. -/
def msgWeSent : Str := "we sent you a connection request".toList

/-- The tie-break reply text of the `a ≥ b` branch. -/
def msgYouConnect : Str := "you connect to us".toList

/-- The command the repository's own client
(`fluid_settings_connection.cpp`) and `messenger::msg_listen` use for
value updates. -/
def cmdValueUpdated : Str := "FLUID_SETTINGS_VALUE_UPDATED".toList

/-- The `name` parameter key. -/
def pName : Str := "name".toList

/-- `messenger::connect_from_gossip` (`messenger.cpp` lines 396-431),
with addresses abstracted to their rank under the `addr::addr` total
order. Returns whether an outbound connection was initiated
(`server::connect_to_other_fluid_settings`) and the list of sent replies;
`send_reply` is `true` for `FLUID_SETTINGS_GOSSIP` (`msg_gossip`) and
`false` for `FLUID_SETTINGS_CONNECTED` (`msg_connected`). The one reply,
sent only when `send_reply` holds, is a `FLUID_SETTINGS_CONNECTED`
carrying `my_ip = a` and the tie-break message text. -/
def connect_from_gossip (a b : Nat) (send_reply : Bool) :
    Bool × List (Nat × Str) :=
  let text : Str := if a < b then msgWeSent else msgYouConnect
  (decide (a < b), if send_reply then [(a, text)] else [])

/-! ### Invariants and example states -/

/-- The record bounds enforced by `value::set_value`: priority in
`[0, 99]` and timestamp at or after 2022-07-21T00:00:00Z. -/
def recordOK (r : VRecord) : Prop :=
  MINIMUM_PRIORITY ≤ r.priority ∧ r.priority ≤ MAXIMUM_PRIORITY ∧
    OLDEST_TIMESTAMP ≤ r.timestamp

instance (r : VRecord) : Decidable (recordOK r) := by
  unfold recordOK; infer_instance

/-- Every record held in `f_values` satisfies the `value::set_value`
bounds. -/
def storeInv (st : Settings) : Prop :=
  ∀ n s, st.values n = some s → ∀ r ∈ s, recordOK r

/-- `f_values` never maps a name to an empty record set. -/
def nonEmptyInv (st : Settings) : Prop :=
  ∀ n, st.values n ≠ some []

/-- The `std::set<value>` representation invariant: records strictly
ordered by priority (hence unique priorities). -/
def sortedByPriority (s : List VRecord) : Prop :=
  s.Pairwise (fun a b => a.priority < b.priority)

instance (s : List VRecord) : Decidable (sortedByPriority s) := by
  unfold sortedByPriority; infer_instance

/-- Every record set in the store is strictly sorted by priority — the
`std::set` representation invariant. -/
def sortedInv (st : Settings) : Prop :=
  ∀ n s, st.values n = some s → sortedByPriority s

/-- Example schema entry: no default value, validator accepting
everything. -/
def exEntry : SchemaEntry := ⟨none, fun _ => true⟩

/-- Example schema entry with default value `"en"`. -/
def exEntryDef : SchemaEntry := ⟨some ['e', 'n'], fun _ => true⟩

/-- Example setting name. -/
def exName : Str := ['n']

/-- Example schema declaring only `exName` (no default). -/
def exSchema : Str → Option SchemaEntry :=
  fun x => if x = exName then some exEntry else none

/-- A valid example timestamp: exactly the 2022-07-21 floor. -/
def T0 : Int := OLDEST_TIMESTAMP

/-- Example settings state: schema declares `exName`, no value stored. -/
def exSettings : Settings := ⟨exSchema, fun _ => false, fun _ => none⟩

/-- Example settings state with one record `("old", 50, T0)` stored for
`exName` (and the advgetopt option defined). -/
def exStored : Settings :=
  ⟨exSchema, fun x => x == exName,
    fun x => if x = exName then some [⟨['o', 'l', 'd'], 50, T0⟩] else none⟩

/-- Example subscriber. -/
def exSub : Sub := ⟨['s', '1'], ['s', 'v', 'c']⟩

/-- Example settings state with two records for `exName`, at priorities
50 and 60 (value `"x"` at 50, `"y|"` at 60). -/
def exStored2 : Settings :=
  ⟨exSchema, fun x => x == exName,
    fun x => if x = exName then
        some [⟨['x'], 50, T0⟩, ⟨['y', '|'], 60, T0⟩] else none⟩

/-- Example daemon state wrapping `exStored2`, with `exSub` subscribed to
`exName`. -/
def exServer : ServerState :=
  ⟨exStored2, fun x => if x = exName then [exSub] else [], false, false⟩

/-! ## Theorems -/

/-- C7: for any name that is not declared in the schema, `get` returns
`UNKNOWN`, and `set` and `reset` fail (return `false`) without creating
or removing any record: the whole state is exactly the same after the
call as before it. -/
theorem C7_schema_gating (st : Settings) (name v : Str) (p t pr pg : Int) (all : Bool)
    (h : st.schema name = none) :
    settings_get_value st name pg all = .unknown ∧
    settings_set_value st name v p t = (.ret false, st) ∧
    settings_reset_setting st name pr = (.ret false, st) := by
  refine ⟨?_, ?_, ?_⟩
  · simp [settings_get_value, h]
  · simp [settings_set_value, h]
  · simp [settings_reset_setting, h]

/-- Witness for C7 at the empty-schema state and the name `"a"`. -/
theorem C7_schema_gating_witness :
    settings_get_value ⟨fun _ => none, fun _ => false, fun _ => none⟩ ['a'] (-1) false
        = .unknown ∧
    settings_set_value ⟨fun _ => none, fun _ => false, fun _ => none⟩ ['a'] ['v'] 50 T0
        = (.ret false, ⟨fun _ => none, fun _ => false, fun _ => none⟩) ∧
    settings_reset_setting ⟨fun _ => none, fun _ => false, fun _ => none⟩ ['a'] 50
        = (.ret false, ⟨fun _ => none, fun _ => false, fun _ => none⟩) :=
  C7_schema_gating ⟨fun _ => none, fun _ => false, fun _ => none⟩ ['a'] ['v'] 50 T0 50 (-1)
    false rfl

/-- C1: evaluation of `settings::set_value` at the failing input. With
`("old", 50, T0)` stored, a set of `"new"` at priority 50 with the
strictly newer timestamp `T0 + 1` returns plain `true` (no
`CHANGED`/`NEWER` report exists in this implementation) yet leaves the
stored record `("old", 50, T0)` untouched, because `std::set::insert`
does not replace the equivalent element; only the `t ≤ stored t` branch
behaves as claimed (last conjunct: an older-or-equal timestamp leaves
the record unchanged). -/
theorem C1_newer_timestamp_not_stored :
    (settings_set_value exStored exName ['n', 'e', 'w'] 50 (T0 + 1)).1 = .ret true ∧
    (settings_set_value exStored exName ['n', 'e', 'w'] 50 (T0 + 1)).2.values exName
        = some [⟨['o', 'l', 'd'], 50, T0⟩] ∧
    (settings_set_value exStored exName ['z'] 50 T0).2.values exName
        = some [⟨['o', 'l', 'd'], 50, T0⟩] := by
  decide

/-- C4 counterexample: on an incoming `CONNECTED` (`send_reply = false`)
with `a = 2 > b = 1`, the code initiates nothing and sends no reply at
all, while the claim says a reply carrying `"you connect to us"` is
sent. -/
theorem C4_connected_no_reply_counterexample :
    (connect_from_gossip 2 1 false).1 = false ∧
    (connect_from_gossip 2 1 false).2 = [] := by
  decide

/-- C4 amended: the receiver initiates an outbound connection exactly
when `a < b`; the single reply — a `CONNECTED{my_ip = a}` carrying the
tie-break text (`"we sent you a connection request"` when `a < b`,
`"you connect to us"` otherwise) — is sent only when the incoming
message was `GOSSIP`; an incoming `CONNECTED` produces no reply; and for
distinct addresses exactly one of the two sides initiates. -/
theorem C4_tie_break_amended (a b : Nat) (sr : Bool) :
    ((connect_from_gossip a b sr).1 = true ↔ a < b) ∧
    ((connect_from_gossip a b sr).2
        = if sr then [(a, if a < b then msgWeSent else msgYouConnect)] else []) ∧
    (a ≠ b →
      ((connect_from_gossip a b sr).1 = true ↔ ¬(connect_from_gossip b a sr).1 = true)) := by
  refine ⟨by simp [connect_from_gossip], rfl, fun hne => ?_⟩
  simp only [connect_from_gossip, decide_eq_true_eq]
  omega

/-- Witness for C4 at `a = 1`, `b = 2`, incoming `GOSSIP`. -/
theorem C4_tie_break_amended_witness :
    (1 : Nat) ≠ 2 ∧
    ((connect_from_gossip 1 2 true).1 = true ↔
        ¬(connect_from_gossip 2 1 true).1 = true) :=
  ⟨by decide, (C4_tie_break_amended 1 2 true).2.2 (by decide)⟩

theorem listenLoop_fst (ss : Sub) :
    ∀ (ns : List Str) (reg : Str → List Sub) (acc : Bool),
      (listenLoop ss reg ns acc).1 = (acc && ns.all fun n => decide (ss ∈ reg n)) := by
  intro ns
  induction ns with
  | nil => intro reg acc; simp [listenLoop]
  | cons n rest ih =>
      intro reg acc
      by_cases hm : ss ∈ reg n
      · simp [listenLoop, hm, ih]
      · simp [listenLoop, hm, ih, fupd]

theorem listenLoop_mem (ss : Sub) :
    ∀ (ns : List Str) (reg : Str → List Sub) (acc : Bool) (n : Str),
      (n ∈ ns ∨ ss ∈ reg n) → ss ∈ (listenLoop ss reg ns acc).2 n := by
  intro ns
  induction ns with
  | nil =>
      intro reg acc n h
      simp only [List.not_mem_nil, false_or] at h
      simpa [listenLoop] using h
  | cons m rest ih =>
      intro reg acc n h
      by_cases hm : ss ∈ reg m
      · simp only [listenLoop, hm, if_pos]
        rcases h with h | h
        · rcases List.mem_cons.mp h with rfl | h
          · exact ih reg acc n (Or.inr hm)
          · exact ih reg acc n (Or.inl h)
        · exact ih reg acc n (Or.inr h)
      · simp only [listenLoop, hm, if_neg, not_false_iff]
        rcases h with h | h
        · rcases List.mem_cons.mp h with rfl | h
          · exact ih _ false n (Or.inr (by simp [fupd]))
          · exact ih _ false n (Or.inl h)
        · by_cases hnm : n = m
          · exact ih _ false n (Or.inr (by simp [fupd, hnm]))
          · exact ih _ false n (Or.inr (by simpa [fupd, hnm] using h))

/-- C8 counterexample: with `(a, exSub)` already registered, a `listen`
call for `"a,b"` returns `false` even though the triple already existed
for `"a"`, one of the given names. -/
theorem C8_listen_counterexample :
    exSub ∈ (fun x => if x = ['a'] then [exSub] else []) ['a'] ∧
    (server_listen (fun x => if x = ['a'] then [exSub] else [])
        exSub.server exSub.service ['a', ',', 'b']).1 = false := by
  decide

/-- C8 amended: `listen` splits the names on commas and inserts
`(name, (server, service))` for each split name into the registry, and
it returns `true` exactly when the name list is non-empty and the triple
already existed for every one of the given names (any actual insertion,
or an empty list, makes it return `false`). -/
theorem C8_listen_amended (reg : Str → List Sub) (sv svc names : Str) :
    (∀ n ∈ (splitOnChar ',' names).filter (fun n => n ≠ []),
        (⟨sv, svc⟩ : Sub) ∈ (server_listen reg sv svc names).2 n) ∧
    ((server_listen reg sv svc names).1 = true ↔
      ((splitOnChar ',' names).filter (fun n => n ≠ []) ≠ [] ∧
        ∀ n ∈ (splitOnChar ',' names).filter (fun n => n ≠ []),
          (⟨sv, svc⟩ : Sub) ∈ reg n)) := by
  simp only [server_listen]
  split_ifs with he
  · refine ⟨fun n hn => ?_, ?_⟩
    · rw [he] at hn
      exact absurd hn (List.not_mem_nil n)
    · exact ⟨fun h => absurd h (by simp), fun h => absurd he h.1⟩
  · refine ⟨fun n hn => listenLoop_mem _ _ reg true n (Or.inl hn), ?_⟩
    rw [listenLoop_fst]
    simp only [Bool.true_and, List.all_eq_true, decide_eq_true_eq]
    exact ⟨fun h => ⟨he, h⟩, fun h => h.2⟩

theorem lastRec_mem (r0 : VRecord) :
    ∀ l : List VRecord, lastRec r0 l ∈ r0 :: l := by
  intro l
  induction l generalizing r0 with
  | nil => simp [lastRec]
  | cons x xs ih =>
      have := ih x
      simp only [lastRec]
      rcases List.mem_cons.mp this with h | h
      · simp [h]
      · simp [h]

theorem lastRec_max (r0 : VRecord) :
    ∀ l : List VRecord, sortedByPriority (r0 :: l) →
      ∀ r ∈ r0 :: l, r.priority ≤ (lastRec r0 l).priority := by
  intro l
  induction l generalizing r0 with
  | nil =>
      intro _ r hr
      rcases List.mem_cons.mp hr with rfl | h
      · exact le_refl _
      · exact absurd h (List.not_mem_nil r)
  | cons x xs ih =>
      intro hs r hr
      have hs' : sortedByPriority (x :: xs) := (List.pairwise_cons.mp hs).2
      have h01 : r0.priority < x.priority :=
        (List.pairwise_cons.mp hs).1 x (List.mem_cons_self x xs)
      rcases List.mem_cons.mp hr with rfl | h
      · calc r.priority ≤ x.priority := le_of_lt h01
          _ ≤ (lastRec x xs).priority := ih x hs' x (List.mem_cons_self x xs)
      · exact ih x hs' r h

/-- C3 counterexample: after `set(n, "x", 50, T0)`, `set(n, "y", 60, T0)`
and `reset(n, 50)`, the store still holds the record `("y", 60, T0)` for
`n`, yet `get(n, HIGHEST, all = false)` returns `NOT_SET` instead of the
stored value `"y"`, because `reset_setting` ran `o->reset()` on the
advgetopt option even though only the priority-50 record was erased. -/
theorem C3_partial_reset_counterexample :
    ((settings_reset_setting
        (settings_set_value (settings_set_value exSettings exName ['x'] 50 T0).2
            exName ['y'] 60 T0).2 exName 50).2.values exName
        = some [⟨['y'], 60, T0⟩]) ∧
    settings_get_value
        (settings_reset_setting
          (settings_set_value (settings_set_value exSettings exName ['x'] 50 T0).2
              exName ['y'] 60 T0).2 exName 50).2 exName HIGHEST_PRIORITY false
        = .notSet := by
  decide

/-- C3 amended: `get` at `HIGHEST` priority (`all = false`) returns the
value of the stored record with the largest priority provided the
advgetopt defined flag of the name is set (as it is after every
successful `set`, but not after a `reset`, even one that left records at
other priorities); whenever the flag is clear — in particular when the
name has no stored records — it returns the schema default with result
`DEFAULT` when the schema defines one, and `NOT_SET` otherwise. -/
theorem C3_get_highest_amended (st : Settings) (name : Str) (e : SchemaEntry)
    (hschema : st.schema name = some e) :
    (st.defined name = false →
      settings_get_value st name HIGHEST_PRIORITY false
        = match e.default? with
          | some d => .withDefault d
          | none => .notSet) ∧
    (∀ r0 rest, st.defined name = true → st.values name = some (r0 :: rest) →
      sortedByPriority (r0 :: rest) →
      settings_get_value st name HIGHEST_PRIORITY false
          = .success (lastRec r0 rest).value ∧
        ∀ r ∈ r0 :: rest, r.priority ≤ (lastRec r0 rest).priority) := by
  constructor
  · intro hdef
    simp only [settings_get_value, hschema, hdef]
    cases e.default? <;> rfl
  · intro r0 rest hdef hv hs
    refine ⟨?_, lastRec_max r0 rest hs⟩
    simp [settings_get_value, hschema, hdef, hv]

/-- Witness for C3 amended at `exStored2` (records at priorities 50 and
60) and at `exSettings` (no record, flag clear, no default). -/
theorem C3_get_highest_amended_witness :
    (settings_get_value exStored2 exName HIGHEST_PRIORITY false
        = .success (lastRec ⟨['x'], 50, T0⟩ [⟨['y', '|'], 60, T0⟩]).value ∧
      ∀ r ∈ [(⟨['x'], 50, T0⟩ : VRecord), ⟨['y', '|'], 60, T0⟩],
        r.priority ≤ (lastRec (⟨['x'], 50, T0⟩ : VRecord) [⟨['y', '|'], 60, T0⟩]).priority) ∧
    settings_get_value exSettings exName HIGHEST_PRIORITY false = .notSet := by
  constructor
  · exact (C3_get_highest_amended exStored2 exName exEntry rfl).2
      ⟨['x'], 50, T0⟩ [⟨['y', '|'], 60, T0⟩] (by decide) rfl (by decide)
  · exact (C3_get_highest_amended exSettings exName exEntry rfl).1 rfl

/-- Witness for C8 amended: after `listen` on the empty registry with
names `"a,b"`, the subscriber is registered for `"a"`. -/
theorem C8_listen_amended_witness :
    exSub ∈ (server_listen (fun _ => []) exSub.server exSub.service
        ['a', ',', 'b']).2 ['a'] :=
  (C8_listen_amended (fun _ => []) exSub.server exSub.service
    ['a', ',', 'b']).1 ['a'] (by decide)

/-! ### Digit strings -/

theorem digitChar_toNat {d : Nat} (h : d < 10) : (Nat.digitChar d).toNat - 48 = d := by
  interval_cases d <;> rfl

theorem digitChar_isDigit {d : Nat} (h : d < 10) : (Nat.digitChar d).isDigit = true := by
  interval_cases d <;> rfl

theorem natToCharsAux_digits :
    ∀ fuel n, n < fuel → ∀ c ∈ natToCharsAux fuel n, c.isDigit = true := by
  intro fuel
  induction fuel with
  | zero => intro n h; omega
  | succ fuel ih =>
      intro n h c hc
      by_cases h10 : n < 10
      · simp only [natToCharsAux, if_pos h10, List.mem_singleton] at hc
        subst hc
        exact digitChar_isDigit h10
      · simp only [natToCharsAux, if_neg h10, List.mem_append, List.mem_singleton] at hc
        rcases hc with hc | hc
        · have hdiv : n / 10 < n := Nat.div_lt_self (by omega) (by omega)
          exact ih (n / 10) (by omega) c hc
        · subst hc
          exact digitChar_isDigit (Nat.mod_lt _ (by omega))

theorem natToCharsAux_ne_nil :
    ∀ fuel n, n < fuel → natToCharsAux fuel n ≠ [] := by
  intro fuel
  cases fuel with
  | zero => intro n h; omega
  | succ fuel =>
      intro n _
      by_cases h10 : n < 10
      · simp [natToCharsAux, h10]
      · simp [natToCharsAux, h10]

theorem natToCharsAux_foldl (m : Nat) :
    ∀ fuel acc, m < fuel →
      ∃ k, 0 < k ∧ m < 10 ^ k ∧
        (natToCharsAux fuel m).foldl (fun a c => a * 10 + (c.toNat - 48)) acc
          = acc * 10 ^ k + m := by
  induction m using Nat.strong_induction_on with
  | _ m ih =>
      intro fuel acc hlt
      match fuel with
      | 0 => omega
      | fuel + 1 =>
          by_cases h10 : m < 10
          · refine ⟨1, one_pos, by omega, ?_⟩
            simp [natToCharsAux, h10, digitChar_toNat h10]
          · have hdiv : m / 10 < m := Nat.div_lt_self (by omega) (by omega)
            obtain ⟨k, hk, hbound, hfold⟩ := ih (m / 10) hdiv fuel acc (by omega)
            have hmod : m % 10 < 10 := Nat.mod_lt _ (by omega)
            refine ⟨k + 1, by omega, ?_, ?_⟩
            · have h1 : m / 10 + 1 ≤ 10 ^ k := hbound
              have h2 : 10 * (m / 10) + 10 ≤ 10 * 10 ^ k := by omega
              have h3 : m < 10 * (m / 10) + 10 := by omega
              calc m < 10 * (m / 10) + 10 := h3
                _ ≤ 10 * 10 ^ k := h2
                _ = 10 ^ (k + 1) := by ring
            · simp only [natToCharsAux, if_neg h10, List.foldl_append, hfold,
                List.foldl_cons, List.foldl_nil, digitChar_toNat hmod]
              have hdm : 10 * (m / 10) + m % 10 = m := Nat.div_add_mod m 10
              calc (acc * 10 ^ k + m / 10) * 10 + m % 10
                  = acc * (10 ^ k * 10) + (10 * (m / 10) + m % 10) := by ring
                _ = acc * 10 ^ (k + 1) + m := by rw [hdm, pow_succ]

theorem parseNatDigits_natToChars (n : Nat) : parseNatDigits (natToChars n) = some n := by
  have hne := natToCharsAux_ne_nil (n + 1) n (by omega)
  have hdig := natToCharsAux_digits (n + 1) n (by omega)
  obtain ⟨k, -, -, hfold⟩ := natToCharsAux_foldl n (n + 1) 0 (by omega)
  simp only [natToChars, parseNatDigits, if_neg hne]
  rw [if_pos (by simpa [List.all_eq_true] using hdig)]
  simp [hfold]

theorem natToChars_digits {n : Nat} : ∀ c ∈ natToChars n, c.isDigit = true :=
  natToCharsAux_digits (n + 1) n (by omega)

theorem parseInt_intToChars {i : Int} (h : 0 ≤ i) : parseInt (intToChars i) = some i := by
  have hneg : ¬i < 0 := by omega
  have hne := natToCharsAux_ne_nil (i.toNat + 1) i.toNat (by omega)
  simp only [intToChars, if_neg hneg]
  cases hl : natToChars i.toNat with
  | nil => exact absurd hl hne
  | cons c r =>
      have hcdig : c.isDigit = true := by
        have := natToChars_digits (n := i.toNat) c (by rw [hl]; exact List.mem_cons_self c r)
        exact this
      have hc1 : ¬c = '-' := by
        intro hc; rw [hc] at hcdig; exact absurd hcdig (by decide)
      have hc2 : ¬c = '+' := by
        intro hc; rw [hc] at hcdig; exact absurd hcdig (by decide)
      simp only [parseInt, if_neg hc1, if_neg hc2]
      rw [← hl, parseNatDigits_natToChars]
      simp [Int.toNat_of_nonneg h]

/-- No separator characters among decimal digits. -/
theorem intToChars_no_sep {i : Int} (h : 0 ≤ i) :
    '|' ∉ intToChars i ∧ '\n' ∉ intToChars i := by
  have hneg : ¬i < 0 := by omega
  simp only [intToChars, if_neg hneg]
  constructor
  · intro hc
    have := natToChars_digits (n := i.toNat) '|' hc
    exact absurd this (by decide)
  · intro hc
    have := natToChars_digits (n := i.toNat) '\n' hc
    exact absurd this (by decide)

/-! ### Splitting -/

theorem splitOnChar_of_not_mem {c : Char} :
    ∀ {l : Str}, c ∉ l → splitOnChar c l = [l] := by
  intro l
  induction l with
  | nil => intro _; rfl
  | cons x xs ih =>
      intro h
      have hx : ¬x = c := fun he => h (he ▸ List.mem_cons_self x xs)
      have hxs : c ∉ xs := fun hm => h (List.mem_cons_of_mem x hm)
      simp [splitOnChar, hx, ih hxs]

theorem splitOnChar_append {c : Char} :
    ∀ {xs rest : Str}, c ∉ xs →
      splitOnChar c (xs ++ c :: rest) = xs :: splitOnChar c rest := by
  intro xs
  induction xs with
  | nil => intro rest _; simp [splitOnChar]
  | cons x xs ih =>
      intro rest h
      have hx : ¬x = c := fun he => h (he ▸ List.mem_cons_self x xs)
      have hxs : c ∉ xs := fun hm => h (List.mem_cons_of_mem x hm)
      simp [splitOnChar, hx, ih hxs]

/-! ### Escaping -/

theorem escapeChar_ne_nil (c : Char) : escapeChar c ≠ [] := by
  simp only [escapeChar]
  split_ifs <;> simp

theorem escapeValue_nil_iff {v : Str} : escapeValue v = [] ↔ v = [] := by
  cases v with
  | nil => simp [escapeValue]
  | cons c r =>
      simp only [escapeValue, List.flatMap_cons]
      constructor
      · intro h
        have := List.append_eq_nil.mp h
        exact absurd this.1 (escapeChar_ne_nil c)
      · intro h; cases h

theorem escapeChar_no_sep (c : Char) : '|' ∉ escapeChar c ∧ '\n' ∉ escapeChar c := by
  simp only [escapeChar]
  split_ifs with h1 h2 h3 h4
  · decide
  · decide
  · decide
  · decide
  · constructor
    · intro h
      rw [List.mem_singleton] at h
      exact h1 h.symm
    · intro h
      rw [List.mem_singleton] at h
      exact h3 h.symm

theorem escapeValue_no_sep (v : Str) : '|' ∉ escapeValue v ∧ '\n' ∉ escapeValue v := by
  constructor <;>
  · intro hm
    simp only [escapeValue, List.mem_flatMap] at hm
    obtain ⟨c, -, hc⟩ := hm
    first
    | exact absurd hc ((escapeChar_no_sep c).1)
    | exact absurd hc ((escapeChar_no_sep c).2)

theorem unescapeValue_cons_of_ne {c : Char} (h : ¬c = '\\') (l : Str) :
    unescapeValue (c :: l) = c :: unescapeValue l := by
  cases l with
  | nil => simp [unescapeValue]
  | cons d t => simp [unescapeValue, h]

theorem unescape_escape (v : Str) : unescapeValue (escapeValue v) = v := by
  induction v with
  | nil => rfl
  | cons c r ih =>
      simp only [escapeValue, List.flatMap_cons]
      by_cases h1 : c = '|'
      · subst h1; simpa [escapeChar, unescapeValue] using ih
      · by_cases h2 : c = '\\'
        · subst h2; simpa [escapeChar, unescapeValue] using ih
        · by_cases h3 : c = '\n'
          · subst h3; simpa [escapeChar, unescapeValue] using ih
          · by_cases h4 : c = '\r'
            · subst h4; simpa [escapeChar, unescapeValue] using ih
            · simp only [escapeChar, if_neg h1, if_neg h2, if_neg h3, if_neg h4,
                List.singleton_append]
              rw [unescapeValue_cons_of_ne h2]
              exact congrArg (fun t => c :: t) ih

/-! ### Looking up and re-applying records -/

theorem setFind_of_sorted :
    ∀ {s : List VRecord}, sortedByPriority s → ∀ {r : VRecord}, r ∈ s →
      setFind s r.priority = some r := by
  intro s
  induction s with
  | nil => intro _ r hr; exact absurd hr (List.not_mem_nil r)
  | cons a tail ih =>
      intro hs r hr
      have hpair := List.pairwise_cons.mp hs
      rcases List.mem_cons.mp hr with rfl | h
      · simp [setFind, List.find?_cons]
      · have hne : ¬a.priority = r.priority := by
          have := hpair.1 r h
          omega
        have hd : decide (a.priority = r.priority) = false := by simp [hne]
        simp only [setFind, List.find?_cons, hd]
        exact ih hpair.2 h

theorem splitOnChar_flatten_serialize :
    ∀ s : List VRecord, (∀ r ∈ s, '\n' ∉ lineOf r) →
      splitOnChar '\n' ((s.map serializeRecord).flatten) = s.map lineOf ++ [[]] := by
  intro s
  induction s with
  | nil => intro _; rfl
  | cons r rest ih =>
      intro h
      have hr : '\n' ∉ lineOf r := h r (List.mem_cons_self r rest)
      simp only [List.map_cons, List.flatten_cons, serializeRecord]
      rw [List.append_assoc, List.singleton_append, splitOnChar_append hr,
        ih (fun x hx => h x (List.mem_cons_of_mem r hx))]
      rfl

theorem lineOf_no_newline {r : VRecord} (h0 : 0 ≤ r.priority) (h1 : 0 ≤ r.timestamp) :
    '\n' ∉ lineOf r := by
  intro hm
  simp only [lineOf, List.mem_append, List.mem_cons] at hm
  rcases hm with h | h | h | h | h
  · exact (intToChars_no_sep h0).2 h
  · exact absurd h (by decide)
  · exact (intToChars_no_sep h1).2 h
  · exact absurd h (by decide)
  · exact (escapeValue_no_sep r.value).2 h

theorem parseLine_lineOf {r : VRecord} (h0 : 0 ≤ r.priority) (h1 : 0 ≤ r.timestamp) :
    parseLine (lineOf r) = some (r.priority, r.timestamp, r.value) := by
  have hp := intToChars_no_sep h0
  have ht := intToChars_no_sep h1
  have hv := escapeValue_no_sep r.value
  simp only [parseLine, lineOf]
  rw [splitOnChar_append hp.1]
  rw [splitOnChar_append ht.1]
  rw [splitOnChar_of_not_mem hv.1]
  simp only [parseInt_intToChars h0, parseInt_intToChars h1, unescape_escape]

/-- Re-applying a record that is already stored leaves `f_values` (and
the schema) unchanged: `settings::set_value` finds the record at the
same priority, and the incoming timestamp is not strictly newer. -/
theorem settings_set_value_reapply {st : Settings} {name : Str} {e : SchemaEntry}
    {s : List VRecord} {r : VRecord}
    (hschema : st.schema name = some e) (hval : e.validate r.value = true)
    (hvalues : st.values name = some s) (hsort : sortedByPriority s) (hr : r ∈ s)
    (hok : recordOK r) :
    (settings_set_value st name r.value r.priority r.timestamp).1 = .ret true ∧
    (settings_set_value st name r.value r.priority r.timestamp).2.values = st.values ∧
    (settings_set_value st name r.value r.priority r.timestamp).2.schema = st.schema := by
  have hmk : value_set_value r.value r.priority r.timestamp
      = some ⟨r.value, r.priority, r.timestamp⟩ := by
    obtain ⟨ha, hb, hc⟩ := hok
    have ha' : ¬(r.priority < MINIMUM_PRIORITY ∨ r.priority > MAXIMUM_PRIORITY) := by
      rintro (hx | hx)
      · exact absurd ha (not_le.mpr hx)
      · exact absurd hb (not_le.mpr hx)
    have hc' : ¬r.timestamp < OLDEST_TIMESTAMP := not_lt.mpr hc
    simp [value_set_value, ha', hc']
  have hfind := setFind_of_sorted hsort hr
  simp only [settings_set_value, hschema, hval, hmk, hvalues, hfind]
  simp

/-- The change dispatcher never touches the settings object, the listener
registry or the remote-change flag. -/
theorem value_changed_state (st : ServerState) (name : Str) :
    (value_changed st name).1.settings = st.settings ∧
    (value_changed st name).1.remoteChange = st.remoteChange ∧
    (value_changed st name).1.listeners = st.listeners := by
  simp only [value_changed]
  by_cases h1 : st.saveArmed <;> by_cases h2 : st.remoteChange <;> simp [h1, h2]

/-- Re-applying an already stored record through `server::set_value`
succeeds and leaves the value store, the schema and the remote-change
flag unchanged. -/
theorem server_set_value_reapply {st : ServerState} {name : Str} {e : SchemaEntry}
    {s : List VRecord} {r : VRecord}
    (hschema : st.settings.schema name = some e) (hval : e.validate r.value = true)
    (hvalues : st.settings.values name = some s) (hsort : sortedByPriority s)
    (hr : r ∈ s) (hok : recordOK r) :
    (server_set_value st name r.value r.priority r.timestamp).1 = .ret true ∧
    (server_set_value st name r.value r.priority r.timestamp).2.1.settings.values
        = st.settings.values ∧
    (server_set_value st name r.value r.priority r.timestamp).2.1.settings.schema
        = st.settings.schema ∧
    (server_set_value st name r.value r.priority r.timestamp).2.1.remoteChange
        = st.remoteChange := by
  obtain ⟨h1, h2, h3⟩ := settings_set_value_reapply hschema hval hvalues hsort hr hok
  have hst := value_changed_state
    { st with settings := (settings_set_value st.settings name r.value r.priority r.timestamp).2 }
    name
  simp only [server_set_value, h1, if_true]
  exact ⟨True.intro, by rw [hst.1]; exact h2, by rw [hst.1]; exact h3, by rw [hst.2.1]⟩

/-- Applying the serialized lines of already stored records back through
the merge loop leaves the value store (and the schema and flag)
unchanged. -/
theorem applyLines_reapply {name : Str} {e : SchemaEntry} {s : List VRecord}
    (hsort : sortedByPriority s)
    (hok : ∀ r ∈ s, recordOK r ∧ e.validate r.value = true) :
    ∀ (rs : List VRecord), (∀ r ∈ rs, r ∈ s) →
      ∀ (st : ServerState), st.settings.schema name = some e →
        st.settings.values name = some s →
        (applyLines name st (rs.map lineOf ++ [[]])).1.settings.values
            = st.settings.values ∧
        (applyLines name st (rs.map lineOf ++ [[]])).1.settings.schema
            = st.settings.schema ∧
        (applyLines name st (rs.map lineOf ++ [[]])).1.remoteChange
            = st.remoteChange := by
  intro rs
  induction rs with
  | nil =>
      intro _ st _ _
      have hparse : parseLine ([] : Str) = none := by rfl
      simp [applyLines, hparse]
  | cons r rest ih =>
      intro hmem st hschema hvalues
      have hrs : r ∈ s := hmem r (List.mem_cons_self r rest)
      obtain ⟨hokr, hvalr⟩ := hok r hrs
      have h0 : 0 ≤ r.priority := by
        have := hokr.1
        simpa [MINIMUM_PRIORITY] using this
      have h1 : 0 ≤ r.timestamp := by
        have := hokr.2.2
        have hpos : (0 : Int) ≤ OLDEST_TIMESTAMP := by
          simp [OLDEST_TIMESTAMP]
        omega
      have hparse := parseLine_lineOf h0 h1
      obtain ⟨hs1, hs2, hs3, hs4⟩ :=
        server_set_value_reapply hschema hvalr hvalues hsort hrs hokr
      have hthrown : ¬(server_set_value st name r.value r.priority r.timestamp).1 = .thrown := by
        rw [hs1]; intro hc; cases hc
      simp only [List.map_cons, List.cons_append, applyLines, hparse, hthrown, if_neg,
        not_false_iff, List.append_eq]
      have := ih (fun x hx => hmem x (List.mem_cons_of_mem r hx))
        (server_set_value st name r.value r.priority r.timestamp).2.1
        (by rw [hs3, hschema]) (by rw [hs2, hvalues])
      exact ⟨by rw [this.1, hs2], by rw [this.2.1, hs3], by rw [this.2.2, hs4]⟩

/-- C2: for every name whose records were stored through `set` under a
shared schema (they validate, respect the record bounds, and sit in a
priority-sorted set), feeding `serialize(name)` back through the
peer-merge unserialization of `server::remote_value_changed` leaves the
value store unchanged. -/
theorem C2_serialize_round_trip (st : ServerState) (name : Str) (e : SchemaEntry)
    (hschema : st.settings.schema name = some e)
    (hrec : ∀ s, st.settings.values name = some s →
        sortedByPriority s ∧ ∀ r ∈ s, recordOK r ∧ e.validate r.value = true) :
    (remote_value_changed st name
        (serialize_value st.settings name)).1.settings.values
      = st.settings.values := by
  cases hv : st.settings.values name with
  | none =>
      have hblob : serialize_value st.settings name = [] := by
        simp [serialize_value, hv]
      have hparse : parseLine ([] : Str) = none := by rfl
      simp [remote_value_changed, hblob, splitOnChar, applyLines, hparse]
  | some s =>
      obtain ⟨hsort, hok⟩ := hrec s hv
      have hblob : serialize_value st.settings name = (s.map serializeRecord).flatten := by
        simp [serialize_value, hv]
      have hnl : ∀ r ∈ s, '\n' ∉ lineOf r := by
        intro r hr
        have h0 : 0 ≤ r.priority := by
          have := (hok r hr).1.1
          simpa [MINIMUM_PRIORITY] using this
        have h1 : 0 ≤ r.timestamp := by
          have := (hok r hr).1.2.2
          have hpos : (0 : Int) ≤ OLDEST_TIMESTAMP := by simp [OLDEST_TIMESTAMP]
          omega
        exact lineOf_no_newline h0 h1
      have hsplit := splitOnChar_flatten_serialize s hnl
      have happ := applyLines_reapply hsort hok s (fun r hr => hr)
        { st with remoteChange := true } hschema hv
      simp only [remote_value_changed, hblob, hsplit]
      exact happ.1

/-- Witness for C2 at `exServer` (records at priorities 50 and 60, the
one at 60 containing an escaped `|`). -/
theorem C2_serialize_round_trip_witness :
    (remote_value_changed exServer exName
        (serialize_value exServer.settings exName)).1.settings.values
      = exServer.settings.values := by
  refine C2_serialize_round_trip exServer exName exEntry rfl ?_
  intro s hs
  have : s = [⟨['x'], 50, T0⟩, ⟨['y', '|'], 60, T0⟩] := by
    simpa [exServer, exStored2, exName] using hs.symm
  subst this
  exact ⟨by decide, by decide⟩

/-! ### Store invariants (C9, C10) -/

theorem setInsert_mem {v : VRecord} :
    ∀ {s : List VRecord} {r : VRecord}, r ∈ setInsert v s → r = v ∨ r ∈ s := by
  intro s
  induction s with
  | nil =>
      intro r hr
      simp only [setInsert, List.mem_singleton] at hr
      exact Or.inl hr
  | cons a rest ih =>
      intro r hr
      simp only [setInsert] at hr
      split_ifs at hr with h1 h2
      · rcases List.mem_cons.mp hr with rfl | h
        · exact Or.inl rfl
        · exact Or.inr h
      · rcases List.mem_cons.mp hr with rfl | h
        · exact Or.inr (List.mem_cons_self _ _)
        · rcases ih h with h' | h'
          · exact Or.inl h'
          · exact Or.inr (List.mem_cons_of_mem _ h')
      · exact Or.inr hr

theorem setInsert_ne_nil (v : VRecord) (s : List VRecord) : setInsert v s ≠ [] := by
  cases s with
  | nil => simp [setInsert]
  | cons a rest =>
      simp only [setInsert]
      split_ifs <;> simp

theorem value_set_value_some {v : Str} {p t : Int} {rec : VRecord}
    (h : value_set_value v p t = some rec) :
    rec = ⟨v, p, t⟩ ∧ recordOK rec := by
  simp only [value_set_value] at h
  split_ifs at h with h1 h2
  cases h
  push_neg at h1
  refine ⟨rfl, ?_⟩
  unfold recordOK
  exact ⟨h1.1, h1.2, not_lt.mp h2⟩

theorem value_set_value_none_iff {v : Str} {p t : Int} :
    value_set_value v p t = none ↔
      (p < MINIMUM_PRIORITY ∨ p > MAXIMUM_PRIORITY ∨ t < OLDEST_TIMESTAMP) := by
  simp only [value_set_value]
  split_ifs with h1 h2
  · refine ⟨fun _ => ?_, fun _ => rfl⟩
    rcases h1 with h | h
    · exact Or.inl h
    · exact Or.inr (Or.inl h)
  · exact ⟨fun _ => Or.inr (Or.inr h2), fun _ => rfl⟩
  · constructor
    · intro hc; cases hc
    · intro hc
      rcases hc with h | h | h
      · exact absurd (Or.inl h) h1
      · exact absurd (Or.inr h) h1
      · exact absurd h h2

/-- The value map after `settings::set_value`: untouched, or updated at
`name` with a fresh singleton or a `std::set::insert` of a record built
by `value::set_value`; and it is untouched whenever the call threw. -/
theorem settings_set_value_values_shape (st : Settings) (name v : Str) (p t : Int) :
    ((settings_set_value st name v p t).2.values = st.values ∨
      (∃ rec, value_set_value v p t = some rec ∧
        ((settings_set_value st name v p t).2.values = fupd st.values name (some [rec]) ∨
          (∃ s, st.values name = some s ∧
            (settings_set_value st name v p t).2.values
              = fupd st.values name (some (setInsert rec s)))))) ∧
    ((settings_set_value st name v p t).1 = .thrown →
      (settings_set_value st name v p t).2.values = st.values) := by
  unfold settings_set_value
  dsimp only
  split
  · exact ⟨Or.inl rfl, fun _ => rfl⟩
  · split
    · exact ⟨Or.inl rfl, fun _ => rfl⟩
    · split
      · exact ⟨Or.inl rfl, fun _ => rfl⟩
      · next rec hmk =>
          split
          · exact ⟨Or.inr ⟨rec, hmk, Or.inl rfl⟩, fun hc => by cases hc⟩
          · next s hv =>
              split
              · exact ⟨Or.inr ⟨rec, hmk, Or.inr ⟨s, hv, rfl⟩⟩, fun hc => by cases hc⟩
              · split
                · exact ⟨Or.inr ⟨rec, hmk, Or.inr ⟨s, hv, rfl⟩⟩, fun hc => by cases hc⟩
                · exact ⟨Or.inl rfl, fun _ => rfl⟩

/-- The value map after `settings::reset_setting`: untouched, or the
entry for `name` dropped, or replaced by the erasure result when that is
non-empty; and it is untouched whenever the call threw. -/
theorem settings_reset_values_shape (st : Settings) (name : Str) (p : Int) :
    ((settings_reset_setting st name p).2.values = st.values ∨
      (settings_reset_setting st name p).2.values = fupd st.values name none ∨
      (∃ s, st.values name = some s ∧ ¬setErase s p = [] ∧
        (settings_reset_setting st name p).2.values
          = fupd st.values name (some (setErase s p)))) ∧
    ((settings_reset_setting st name p).1 = .thrown →
      (settings_reset_setting st name p).2.values = st.values) := by
  unfold settings_reset_setting
  dsimp only
  split
  · exact ⟨Or.inl rfl, fun _ => rfl⟩
  · split
    · exact ⟨Or.inl rfl, fun _ => rfl⟩
    · next s hv =>
        split
        · exact ⟨Or.inl rfl, fun _ => rfl⟩
        · split
          · exact ⟨Or.inl rfl, fun _ => rfl⟩
          · split
            · next he => exact ⟨Or.inr (Or.inl rfl), fun hc => by cases hc⟩
            · next he => exact ⟨Or.inr (Or.inr ⟨s, hv, he, rfl⟩), fun hc => by cases hc⟩

/-- Updating the value map at one key with records that all satisfy the
bounds preserves the store invariant. -/
theorem storeInv_update {st : Settings} (hinv : storeInv st) (name : Str)
    (o : Option (List VRecord)) (ho : ∀ l, o = some l → ∀ r ∈ l, recordOK r) :
    ∀ n s, fupd st.values name o n = some s → ∀ r ∈ s, recordOK r := by
  intro n s h r hr
  by_cases hn : n = name
  · rw [fupd, if_pos hn] at h
    exact ho s h r hr
  · rw [fupd, if_neg hn] at h
    exact hinv n s h r hr

/-- C9: every record held in the value store satisfies
`priority ∈ [0, 99]` and `timestamp ≥ 2022-07-21T00:00:00Z`; an attempt
to construct a record outside these bounds throws
(`value::set_value` yields no record exactly on out-of-range inputs),
the store is untouched by a throwing call, and both `set_value` and
`reset_setting` preserve the invariant. -/
theorem C9_record_bounds (st : Settings) (name v : Str) (p t pr : Int)
    (hinv : storeInv st) :
    storeInv (settings_set_value st name v p t).2 ∧
    ((settings_set_value st name v p t).1 = .thrown →
        (settings_set_value st name v p t).2.values = st.values) ∧
    (value_set_value v p t = none ↔
        (p < MINIMUM_PRIORITY ∨ p > MAXIMUM_PRIORITY ∨ t < OLDEST_TIMESTAMP)) ∧
    storeInv (settings_reset_setting st name pr).2 ∧
    ((settings_reset_setting st name pr).1 = .thrown →
        (settings_reset_setting st name pr).2.values = st.values) := by
  obtain ⟨hshape, hthrow⟩ := settings_set_value_values_shape st name v p t
  obtain ⟨hshape', hthrow'⟩ := settings_reset_values_shape st name pr
  refine ⟨?_, hthrow, value_set_value_none_iff, ?_, hthrow'⟩
  · rcases hshape with h | ⟨rec, hrec, h | ⟨s, hs, h⟩⟩
    · intro n s hn
      rw [h] at hn
      exact hinv n s hn
    · intro n s' hn
      rw [h] at hn
      refine storeInv_update hinv name (some [rec]) ?_ n s' hn
      intro l hl r hr
      cases hl
      rw [List.mem_singleton] at hr
      subst hr
      exact (value_set_value_some hrec).2
    · intro n s' hn
      rw [h] at hn
      refine storeInv_update hinv name (some (setInsert rec s)) ?_ n s' hn
      intro l hl r hr
      cases hl
      rcases setInsert_mem hr with rfl | hr'
      · exact (value_set_value_some hrec).2
      · exact hinv name s hs r hr'
  · rcases hshape' with h | h | ⟨s, hs, -, h⟩
    · intro n s hn
      rw [h] at hn
      exact hinv n s hn
    · intro n s hn
      rw [h] at hn
      refine storeInv_update hinv name none ?_ n s hn
      intro l hl
      cases hl
    · intro n s' hn
      rw [h] at hn
      refine storeInv_update hinv name (some (setErase s pr)) ?_ n s' hn
      intro l hl r hr
      cases hl
      exact hinv name s hs r (List.mem_of_mem_eraseP hr)

/-- Witness for C9 at the empty example state and concrete arguments. -/
theorem C9_record_bounds_witness :
    storeInv (settings_set_value exSettings exName ['v'] 50 T0).2 ∧
    (value_set_value ['v'] 100 T0 = none ↔
        ((100 : Int) < MINIMUM_PRIORITY ∨ (100 : Int) > MAXIMUM_PRIORITY ∨
          T0 < OLDEST_TIMESTAMP)) := by
  have hinv : storeInv exSettings := by
    intro n s h
    simp [exSettings] at h
  exact ⟨(C9_record_bounds exSettings exName ['v'] 50 T0 50 hinv).1,
    (C9_record_bounds exSettings exName ['v'] 100 T0 50 hinv).2.2.1⟩

/-- `settings::get_value` on a name whose advgetopt option is not
defined: schema default or not-set. -/
theorem settings_get_value_undefined {st : Settings} {name : Str} {e : SchemaEntry}
    (hschema : st.schema name = some e) (hdef : st.defined name = false)
    (p : Int) (all : Bool) :
    settings_get_value st name p all
      = match e.default? with
        | some d => GetRes.withDefault d
        | none => GetRes.notSet := by
  simp only [settings_get_value, hschema, hdef]
  cases e.default? <;> rfl

/-- A `reset_setting` call that returned `true` found the name in the
schema, kept the schema intact, and left the advgetopt option
undefined (`o->reset()`). -/
theorem settings_reset_result_shape (st : Settings) (name : Str) (p : Int) :
    ((settings_reset_setting st name p).1 = .ret true →
        ∃ e, st.schema name = some e) ∧
    (settings_reset_setting st name p).2.schema = st.schema ∧
    ((∃ e, st.schema name = some e) →
        (settings_reset_setting st name p).2.defined name = false) := by
  unfold settings_reset_setting
  dsimp only
  split
  · next hsch =>
      refine ⟨fun hc => by simp at hc, rfl, fun hex => ?_⟩
      obtain ⟨e, he⟩ := hex
      rw [hsch] at he
      cases he
  · next e hsch =>
      have hdef : fupd st.defined name false name = false := by simp [fupd]
      split
      · exact ⟨fun _ => ⟨e, hsch⟩, rfl, fun _ => hdef⟩
      · split
        · exact ⟨fun _ => ⟨e, hsch⟩, rfl, fun _ => hdef⟩
        · split
          · exact ⟨fun _ => ⟨e, hsch⟩, rfl, fun _ => hdef⟩
          · split
            · exact ⟨fun _ => ⟨e, hsch⟩, rfl, fun _ => hdef⟩
            · exact ⟨fun _ => ⟨e, hsch⟩, rfl, fun _ => hdef⟩

/-- Updating the value map at one key with anything but `some []`
preserves the no-empty-set invariant. -/
theorem nonEmptyInv_update {st : Settings} (hinv : nonEmptyInv st) (name : Str)
    (o : Option (List VRecord)) (ho : ¬o = some []) :
    ∀ n, ¬fupd st.values name o n = some [] := by
  intro n
  by_cases hn : n = name
  · rw [fupd, if_pos hn]
    exact ho
  · rw [fupd, if_neg hn]
    exact hinv n

/-- C10: the value store never maps a name to an empty record set —
`set_value` only ever inserts records, and a `reset_setting` that
removes the last record erases the map entry; consequently, after a
reset that returned `true` and deleted the final record, a subsequent
`get` falls through to the schema-default/not-set path rather than
finding an empty set. -/
theorem C10_no_empty_record_set (st : Settings) (name v : Str) (p t pr : Int)
    (hinv : nonEmptyInv st) :
    nonEmptyInv (settings_set_value st name v p t).2 ∧
    nonEmptyInv (settings_reset_setting st name pr).2 ∧
    ((settings_reset_setting st name pr).1 = .ret true →
      (settings_reset_setting st name pr).2.values name = none →
      ∃ e, st.schema name = some e ∧
        settings_get_value (settings_reset_setting st name pr).2 name
            HIGHEST_PRIORITY false
          = match e.default? with
            | some d => GetRes.withDefault d
            | none => GetRes.notSet) := by
  obtain ⟨hshape, -⟩ := settings_set_value_values_shape st name v p t
  obtain ⟨hshape', -⟩ := settings_reset_values_shape st name pr
  obtain ⟨hfound, hsch, hdef⟩ := settings_reset_result_shape st name pr
  refine ⟨?_, ?_, ?_⟩
  · rcases hshape with h | ⟨rec, -, h | ⟨s, -, h⟩⟩
    · intro n
      rw [h]
      exact hinv n
    · intro n
      rw [h]
      refine nonEmptyInv_update hinv name _ ?_ n
      intro hc
      cases hc
    · intro n
      rw [h]
      refine nonEmptyInv_update hinv name _ ?_ n
      intro hc
      exact setInsert_ne_nil rec s (Option.some_injective _ hc)
  · rcases hshape' with h | h | ⟨s, -, hne, h⟩
    · intro n
      rw [h]
      exact hinv n
    · intro n
      rw [h]
      refine nonEmptyInv_update hinv name none ?_ n
      intro hc
      cases hc
    · intro n
      rw [h]
      refine nonEmptyInv_update hinv name _ ?_ n
      intro hc
      exact hne (Option.some_injective _ hc)
  · intro hres _hnone
    obtain ⟨e, he⟩ := hfound hres
    refine ⟨e, he, ?_⟩
    exact settings_get_value_undefined (by rw [hsch]; exact he) (hdef ⟨e, he⟩) _ _

/-- Witness for C10: after deleting the only record of `exStored` at
priority 50, `get` falls back to `NOT_SET` (the example schema has no
default). -/
theorem C10_no_empty_record_set_witness :
    nonEmptyInv (settings_set_value exStored exName ['z'] 60 T0).2 ∧
    (∃ e, exStored.schema exName = some e ∧
      settings_get_value (settings_reset_setting exStored exName 50).2 exName
          HIGHEST_PRIORITY false
        = match e.default? with
          | some d => GetRes.withDefault d
          | none => GetRes.notSet) := by
  have hinv : nonEmptyInv exStored := by
    intro n
    by_cases hn : n = exName
    · subst hn
      simp [exStored]
    · simp [exStored, hn]
  exact ⟨(C10_no_empty_record_set exStored exName ['z'] 60 T0 50 hinv).1,
    (C10_no_empty_record_set exStored exName ['z'] 60 T0 50 hinv).2.2
      (by decide) (by decide)⟩

/-- `std::set::insert` keeps the set strictly sorted by priority. -/
theorem setInsert_sorted {v : VRecord} :
    ∀ {s : List VRecord}, sortedByPriority s → sortedByPriority (setInsert v s) := by
  intro s
  induction s with
  | nil =>
      intro _
      simp [setInsert, sortedByPriority]
  | cons a rest ih =>
      intro hs
      obtain ⟨ha, hrest⟩ := List.pairwise_cons.mp hs
      simp only [setInsert]
      split_ifs with h1 h2
      · refine List.pairwise_cons.mpr ⟨?_, hs⟩
        intro b hb
        rcases List.mem_cons.mp hb with rfl | hb'
        · exact h1
        · exact lt_trans h1 (ha b hb')
      · refine List.pairwise_cons.mpr ⟨?_, ih hrest⟩
        intro b hb
        rcases setInsert_mem hb with rfl | hb'
        · exact h2
        · exact ha b hb'
      · exact hs

/-- The `std::set` sortedness invariant is preserved by `set_value` and
`reset_setting`: the hypotheses of the round-trip and get-highest
theorems hold in every reachable store. -/
theorem sortedInv_preserved (st : Settings) (name v : Str) (p t pr : Int)
    (hinv : sortedInv st) :
    sortedInv (settings_set_value st name v p t).2 ∧
    sortedInv (settings_reset_setting st name pr).2 := by
  obtain ⟨hshape, -⟩ := settings_set_value_values_shape st name v p t
  obtain ⟨hshape', -⟩ := settings_reset_values_shape st name pr
  constructor
  · rcases hshape with h | ⟨rec, -, h | ⟨s, hs, h⟩⟩
    · intro n s hn
      rw [h] at hn
      exact hinv n s hn
    · intro n s' hn
      rw [h] at hn
      by_cases hname : n = name
      · rw [fupd, if_pos hname] at hn
        cases hn
        simp [sortedByPriority]
      · rw [fupd, if_neg hname] at hn
        exact hinv n s' hn
    · intro n s' hn
      rw [h] at hn
      by_cases hname : n = name
      · rw [fupd, if_pos hname] at hn
        cases hn
        exact setInsert_sorted (hinv name s hs)
      · rw [fupd, if_neg hname] at hn
        exact hinv n s' hn
  · rcases hshape' with h | h | ⟨s, hs, -, h⟩
    · intro n s hn
      rw [h] at hn
      exact hinv n s hn
    · intro n s hn
      rw [h] at hn
      by_cases hname : n = name
      · rw [fupd, if_pos hname] at hn
        cases hn
      · rw [fupd, if_neg hname] at hn
        exact hinv n s hn
    · intro n s' hn
      rw [h] at hn
      by_cases hname : n = name
      · rw [fupd, if_pos hname] at hn
        cases hn
        exact (hinv name s hs).sublist (List.eraseP_sublist s)
      · rw [fupd, if_neg hname] at hn
        exact hinv n s' hn

/-! ### Change dispatcher messages (C5, C6) -/

theorem filter_isBroadcast_notifies (l : List Sub) (cmd : Str)
    (params : List (Str × Str)) :
    (l.map (fun s => OutMsg.notify s cmd params)).filter OutMsg.isBroadcast = [] := by
  induction l with
  | nil => rfl
  | cons a rest ih => simp [OutMsg.isBroadcast, ih]

/-- The dispatcher's outgoing messages: with the remote-change flag set,
the per-subscriber notifications only; with the flag clear, the
notifications followed by exactly one broadcast step carrying the
serialized value set. -/
theorem value_changed_broadcast (st : ServerState) (name : Str) :
    (st.remoteChange = true →
      (value_changed st name).2.filter OutMsg.isBroadcast = []) ∧
    (st.remoteChange = false →
      (value_changed st name).2.filter OutMsg.isBroadcast
        = [OutMsg.broadcastStep name (serialize_value st.settings name)]) := by
  constructor
  · intro h
    simp only [value_changed]
    by_cases h1 : st.saveArmed <;>
      simp [h1, h, filter_isBroadcast_notifies, OutMsg.isBroadcast]
  · intro h
    simp only [value_changed]
    by_cases h1 : st.saveArmed <;>
      simp [h1, h, List.filter_append, filter_isBroadcast_notifies, OutMsg.isBroadcast]

theorem server_set_value_remote {st : ServerState} (h : st.remoteChange = true)
    (name v : Str) (p t : Int) :
    (server_set_value st name v p t).2.1.remoteChange = true ∧
    (server_set_value st name v p t).2.2.filter OutMsg.isBroadcast = [] := by
  simp only [server_set_value]
  split_ifs with hc
  · constructor
    · rw [(value_changed_state _ name).2.1]
      exact h
    · exact (value_changed_broadcast _ name).1 h
  · exact ⟨h, rfl⟩

theorem applyLines_remote (name : Str) :
    ∀ (lines : List Str) (st : ServerState), st.remoteChange = true →
      (applyLines name st lines).1.remoteChange = true ∧
      (applyLines name st lines).2.filter OutMsg.isBroadcast = [] := by
  intro lines
  induction lines with
  | nil => intro st h; exact ⟨h, rfl⟩
  | cons l rest ih =>
      intro st h
      simp only [applyLines]
      cases hp : parseLine l with
      | none => exact ih st h
      | some ptv =>
          obtain ⟨p, t, v⟩ := ptv
          dsimp only
          obtain ⟨hr1, hr2⟩ := server_set_value_remote h name v p t
          split_ifs with hc
          · exact ⟨hr1, hr2⟩
          · obtain ⟨hi1, hi2⟩ := ih (server_set_value st name v p t).2.1 hr1
            refine ⟨hi1, ?_⟩
            rw [List.filter_append, hr2, hi2]
            rfl

/-- C6: a store mutation applied while merging an incoming
`VALUE_CHANGED` from a peer produces no broadcast to any peer, the
remote-change flag is back to `false` once the merge ends (it is held at
`true` exactly for its duration by the `snapdev::safe_variable` guard),
and every successful local `set_value`/`reset_setting` reaches the
broadcast step (exactly one broadcast message is emitted). -/
theorem C6_no_self_echo (st : ServerState) (name blob : Str) (st' : ServerState)
    (name' v : Str) (p t pr : Int) :
    (remote_value_changed st name blob).1.remoteChange = false ∧
    (remote_value_changed st name blob).2.filter OutMsg.isBroadcast = [] ∧
    (st'.remoteChange = false → (server_set_value st' name' v p t).1 = .ret true →
      (server_set_value st' name' v p t).2.2.filter OutMsg.isBroadcast
        = [OutMsg.broadcastStep name'
            (serialize_value (server_set_value st' name' v p t).2.1.settings name')]) ∧
    (st'.remoteChange = false → (server_reset_setting st' name' pr).1 = .ret true →
      (server_reset_setting st' name' pr).2.2.filter OutMsg.isBroadcast
        = [OutMsg.broadcastStep name'
            (serialize_value (server_reset_setting st' name' pr).2.1.settings name')]) := by
  refine ⟨rfl, ?_, ?_, ?_⟩
  · exact (applyLines_remote name (splitOnChar '\n' blob)
      { st with remoteChange := true } rfl).2
  · intro hflag hres
    simp only [server_set_value] at hres ⊢
    split_ifs at hres ⊢ with hc
    · have hvc := (value_changed_broadcast
        { st' with settings := (settings_set_value st'.settings name' v p t).2 } name').2 hflag
      rw [hvc]
      have hsettings := (value_changed_state
        { st' with settings := (settings_set_value st'.settings name' v p t).2 } name').1
      rw [hsettings]
    · exact absurd hres hc
  · intro hflag hres
    simp only [server_reset_setting] at hres ⊢
    split_ifs at hres ⊢ with hc
    · have hvc := (value_changed_broadcast
        { st' with settings := (settings_reset_setting st'.settings name' pr).2 } name').2 hflag
      rw [hvc]
      have hsettings := (value_changed_state
        { st' with settings := (settings_reset_setting st'.settings name' pr).2 } name').1
      rw [hsettings]
    · exact absurd hres hc

/-- Witness for C6 at `exServer`: an empty merge leaves the flag clear,
and a successful local set at priority 55 emits exactly one broadcast. -/
theorem C6_no_self_echo_witness :
    (remote_value_changed exServer exName []).1.remoteChange = false ∧
    exServer.remoteChange = false ∧
    (server_set_value exServer exName ['z'] 55 T0).1 = .ret true ∧
    (server_set_value exServer exName ['z'] 55 T0).2.2.filter OutMsg.isBroadcast
      = [OutMsg.broadcastStep exName
          (serialize_value (server_set_value exServer exName ['z'] 55 T0).2.1.settings
            exName)] :=
  ⟨(C6_no_self_echo exServer exName [] exServer exName ['z'] 55 T0 50).1,
    rfl, by decide,
    (C6_no_self_echo exServer exName [] exServer exName ['z'] 55 T0 50).2.2.1
      rfl (by decide)⟩

/-- C5: evaluation of the change dispatcher at the failing input. With
`exSub` subscribed to `exName`, a successful `set` sends exactly one
message addressed to `exSub` — but its command is `NEW_VALUE`, not
`FLUID_SETTINGS_VALUE_UPDATED` (the command the repository's own client
and `messenger::msg_listen` use), and its parameters carry only the new
effective value, never the setting's name. -/
theorem C5_new_value_instead_of_value_updated :
    (server_set_value exServer exName ['z'] 55 T0).1 = .ret true ∧
    ((server_set_value exServer exName ['z'] 55 T0).2.2.filter
      (fun m => match m with
        | OutMsg.notify _ c _ => c = cmdValueUpdated
        | _ => false)) = [] ∧
    ((server_set_value exServer exName ['z'] 55 T0).2.2.filter
      (fun m => match m with
        | OutMsg.notify s _ _ => s = exSub
        | _ => false))
      = [OutMsg.notify exSub cmdNewValue [(pValue, ['y', '|'])]] ∧
    ¬cmdNewValue = cmdValueUpdated ∧
    ((server_set_value exServer exName ['z'] 55 T0).2.2.all
      (fun m => match m with
        | OutMsg.notify _ _ params => params.all (fun kv => ¬kv.1 = pName)
        | _ => true)) = true := by
  decide

end FluidSettings
